import Mathlib

/-!
Verification of the gardening isometric tile-world renderer.

This file gives a shallow embedding of the core of the program
(tile catalog, world grid, isometric projector and per-frame draw
traversal) and proves the specified properties about it.

Conventions of the embedding:
* Rust `usize` extents become `Nat`; `i64`/`i32` coordinate values become
  `Int`, with explicit two's-complement reduction (`wrap64`, `toI32`)
  exactly where a Rust cast or arithmetic result is stored in a machine
  word whose overflow behaviour matters.
* Fallible operations (`Option` in Rust, and vector indexing that could
  panic on an ill-formed state) return `Option`.
* The SFML draw call is modelled as emitting a `DrawCmd` value; one
  frame of `draw_window` produces the ordered list of emitted commands
  (`none` modelling a panic of the `unwrap` in the draw loop).
-/

namespace Gardening

/-- The tile variants of the catalog (`enum Tile` in the source):
`Air` is the empty tile, `Plant b` carries its boolean growth state. -/
inductive Tile where
  | Air : Tile
  | Grass : Tile
  | Plant : Bool → Tile
deriving DecidableEq, Repr

/-- An integer rectangle, standing for SFML's `Rect<i32>`; the
constructor argument order `(left, top, width, height)` follows
`Rect::new`. -/
structure IntRect where
  left : Int
  top : Int
  width : Int
  height : Int
deriving DecidableEq, Repr

namespace Tile

/-- Atlas tile width in pixels (`Tile::WIDTH_PX`). -/
def WIDTH_PX : Int := 32

/-- Atlas tile height in pixels (`Tile::HEIGHT_PX`). -/
def HEIGHT_PX : Int := 32

/-- Number of tiles per atlas row (`Tile::ATLAS_LINE_TILE_COUNT`). -/
def ATLAS_LINE_TILE_COUNT : Int := 16

/-- Kind index of a tile (`Tile::tile_id`). -/
def tile_id : Tile → Int
  | .Air => 0
  | .Grass => 1
  | .Plant false => 2
  | .Plant true => 3

/-- Atlas rectangle of a tile (`Tile::texture_rect`): `Air` has no
visual; any other tile gets the rectangle computed from its kind index.
Rust's `%` and `/` on `i32` truncate toward zero, hence `Int.tmod` and
`Int.tdiv`. -/
def texture_rect (t : Tile) : Option IntRect :=
  match t with
  | .Air => none
  | _ =>
    let a := t.tile_id
    some ⟨WIDTH_PX * (Int.tmod a ATLAS_LINE_TILE_COUNT),
          HEIGHT_PX * (Int.tdiv a ATLAS_LINE_TILE_COUNT),
          WIDTH_PX, HEIGHT_PX⟩

end Tile

/-- The spec's atlas-layout formula, as a function of the kind index:
column = index mod line length, row = index div line length, origin
`(column*width, row*height)`, size `(width, height)`. Stated separately
from `Tile.texture_rect` so the two can be compared. -/
def atlasRect (a : Int) : IntRect :=
  { left := Int.tmod a Tile.ATLAS_LINE_TILE_COUNT * Tile.WIDTH_PX,
    top := Int.tdiv a Tile.ATLAS_LINE_TILE_COUNT * Tile.HEIGHT_PX,
    width := Tile.WIDTH_PX,
    height := Tile.HEIGHT_PX }

/-- The world grid (`struct World`): a flat tile vector plus the three
extents. -/
structure World where
  tiles : List Tile
  size_x : Nat
  size_y : Nat
  size_z : Nat
deriving Repr

namespace World

/-- Bounds-checked coordinate-to-index mapping (`World::get_index`).
The guard is the source's disjunction of out-of-range conditions; the
`as usize` casts on in-range (hence non-negative) coordinates are
`Int.toNat`. -/
def get_index (w : World) (x y z : Int) : Option Nat :=
  if x < 0 ∨ x ≥ (w.size_x : Int) ∨ y < 0 ∨ y ≥ (w.size_y : Int) ∨
      z < 0 ∨ z ≥ (w.size_z : Int) then
    none
  else
    some (x.toNat + y.toNat * w.size_x + z.toNat * w.size_x * w.size_y)

/-- Write a tile (`World::set_tile`): a no-op when the coordinate is out
of bounds, otherwise overwrite the cell at the computed index. -/
def set_tile (w : World) (x y z : Int) (t : Tile) : World :=
  match w.get_index x y z with
  | some index => { w with tiles := w.tiles.set index t }
  | none => w

/-- Read a tile (`World::get_tile`): absent when out of bounds. The
vector indexing is modelled with `getElem?` (on a well-formed world the
index is always in range, see `reachable_wf_aux`). -/
def get_tile (w : World) (x y z : Int) : Option Tile :=
  (w.get_index x y z).bind fun index => w.tiles[index]?

/-- Flat-ground initializer (`World::new_flat`): a vector of `Air` of
length `size_x * size_y * size_z`, then every cell with `y = 0` set to
`Grass` by the two nested loops over `x` and `z`. -/
def new_flat (sx sy sz : Nat) : World :=
  let tiles := List.replicate (sx * sy * sz) Tile.Air
  let world : World := ⟨tiles, sx, sy, sz⟩
  (List.range sx).foldl
    (fun w (x : Nat) =>
      (List.range sz).foldl
        (fun w (z : Nat) => w.set_tile (x : Int) 0 (z : Int) Tile.Grass) w)
    world

/-- The in-range predicate: all three components within `[0, extent)`.
This is the complement of `get_index`'s rejection guard. -/
def inRange (w : World) (x y z : Int) : Prop :=
  0 ≤ x ∧ x < (w.size_x : Int) ∧ 0 ≤ y ∧ y < (w.size_y : Int) ∧
    0 ≤ z ∧ z < (w.size_z : Int)

instance (w : World) (x y z : Int) : Decidable (w.inRange x y z) := by
  unfold inRange; infer_instance

/-- Well-formedness: the storage length matches the extents. -/
def Wf (w : World) : Prop :=
  w.tiles.length = w.size_x * w.size_y * w.size_z

instance (w : World) : Decidable w.Wf := by
  unfold Wf; infer_instance

/-- Modelled from the spec: `index_to_coordinate`, the inverse of
`coordinate_to_index`, is not part of `src/` (the spec says it is
"derivable by the implementer for testing"); it is defined here by
inverting the spec's linear-index formula
`x + y*size_x + z*size_x*size_y`. -/
def index_to_coordinate (w : World) (i : Nat) : Int × Int × Int :=
  (((i % w.size_x : Nat) : Int),
   ((i / w.size_x % w.size_y : Nat) : Int),
   ((i / (w.size_x * w.size_y) : Nat) : Int))

end World

/-- Two's-complement wrap of a value stored in an `i64`. -/
def wrap64 (v : Int) : Int := (v + 2 ^ 63) % 2 ^ 64 - 2 ^ 63

/-- Rust's `as i32` cast: two's-complement truncation to 32 bits. -/
def toI32 (v : Int) : Int := (v + 2 ^ 31) % 2 ^ 32 - 2 ^ 31

/-- Isometric projection (`tile_coords_to_px`): `i64` arithmetic on the
grid coordinates followed by an `as i32` cast of each component of the
resulting `Vector2i`. `TILE_SIZE = 32`, `QUARTER_UNIT = TILE_SIZE / 4`. -/
def tile_coords_to_px (x y z : Int) : Int × Int :=
  let TILE_SIZE : Int := 32
  let QUARTER_UNIT : Int := TILE_SIZE / 4
  (toI32 (wrap64 (wrap64 (x - z) * (QUARTER_UNIT * 2))),
   toI32 (wrap64 (wrap64 (wrap64 (wrap64 (x + z) - y) - y) * QUARTER_UNIT)))

/-- One emitted draw command (`draw_tile_at_px`'s `window.draw` call):
destination pixel position, draw size and atlas source rectangle. -/
structure DrawCmd where
  pos : Int × Int
  size : Int × Int
  rect : IntRect
deriving DecidableEq, Repr

/-- Emission at a pixel position (`draw_tile_at_px`): one command when
the tile has an atlas rectangle, none otherwise. -/
def draw_tile_at_px (tile : Tile) (x y : Int) : List DrawCmd :=
  match tile.texture_rect with
  | some texture_rect => [{ pos := (x, y), size := (32, 32), rect := texture_rect }]
  | none => []

/-- Emission at a grid coordinate (`draw_tile_at_grid`): project, then
emit at the pixel position. -/
def draw_tile_at_grid (tile : Tile) (x y z : Int) : List DrawCmd :=
  let px := tile_coords_to_px x y z
  draw_tile_at_px tile px.1 px.2

/-- The coordinate sequence visited by `draw_window`'s three nested
loops: `y` outermost, then `x`, then `z`, each ascending; triples are
`(x, y, z)`. -/
def World.visitList (w : World) : List (Int × Int × Int) :=
  (List.range w.size_y).flatMap fun y =>
    (List.range w.size_x).flatMap fun x =>
      (List.range w.size_z).map fun (z : Nat) => ((x : Int), (y : Int), (z : Int))

/-- One frame's draw traversal (`draw_window`): for each visited
coordinate fetch the tile (`unwrap` modelled as the `Option` bind: a
failed fetch makes the whole frame `none`) and emit its commands in
visit order. -/
def draw_window (w : World) : Option (List DrawCmd) :=
  (w.visitList.mapM fun c =>
    (w.get_tile c.1 c.2.1 c.2.2).map fun tile =>
      draw_tile_at_grid tile c.1 c.2.1 c.2.2).map List.flatten

/-- The tile stored at a visited coordinate, for stating the shape of
the emitted command list (defaults to `Air` off-grid). -/
def World.tileAt (w : World) (c : Int × Int × Int) : Tile :=
  (w.get_tile c.1 c.2.1 c.2.2).getD Tile.Air

/-- Strict visit order of `draw_window`: lexicographic with `y`
outermost, then `x`, then `z`. -/
def visitLt (a b : Int × Int × Int) : Prop :=
  a.2.1 < b.2.1 ∨ (a.2.1 = b.2.1 ∧ (a.1 < b.1 ∨ (a.1 = b.1 ∧ a.2.2 < b.2.2)))

/-- Worlds reachable by the program: a flat world, then any sequence of
`set_tile` calls. -/
inductive Reachable : World → Prop where
  | flat : ∀ sx sy sz, Reachable (World.new_flat sx sy sz)
  | set : ∀ w x y z t, Reachable w → Reachable (w.set_tile x y z t)

end Gardening

/-! ## Basic lemmas about the grid -/

namespace Gardening

/-- The rejection guard of `get_index` is exactly the complement of
`inRange`. -/
lemma get_index_eq (w : World) (x y z : Int) :
    w.get_index x y z =
      if w.inRange x y z then
        some (x.toNat + y.toNat * w.size_x + z.toNat * w.size_x * w.size_y)
      else none := by
  simp only [World.get_index, World.inRange]
  by_cases h : 0 ≤ x ∧ x < (w.size_x : Int) ∧ 0 ≤ y ∧ y < (w.size_y : Int) ∧
      0 ≤ z ∧ z < (w.size_z : Int)
  · rw [if_pos h, if_neg (by omega)]
  · rw [if_neg h, if_pos (by omega)]

lemma ab_lt {a b sx sy : Nat} (ha : a < sx) (hb : b < sy) :
    a + b * sx < sx * sy := by
  calc a + b * sx < sx + b * sx := by omega
  _ = (b + 1) * sx := by ring
  _ ≤ sy * sx := Nat.mul_le_mul_right sx hb
  _ = sx * sy := Nat.mul_comm sy sx

lemma index_lt {a b c sx sy sz : Nat} (ha : a < sx) (hb : b < sy) (hc : c < sz) :
    a + b * sx + c * sx * sy < sx * sy * sz := by
  have h1 : a + b * sx < sx * sy := ab_lt ha hb
  have h2 : a + b * sx + c * (sx * sy) < sx * sy * sz := ab_lt h1 hc
  calc a + b * sx + c * sx * sy = a + b * sx + c * (sx * sy) := by ring
  _ < sx * sy * sz := h2

/-- Decoding a linear index recovers the three coordinates. -/
lemma decode_index {a b sx sy : Nat} (c : Nat) (ha : a < sx) (hb : b < sy) :
    (a + b * sx + c * sx * sy) % sx = a ∧
    (a + b * sx + c * sx * sy) / sx % sy = b ∧
    (a + b * sx + c * sx * sy) / (sx * sy) = c := by
  have hsx : 0 < sx := Nat.lt_of_le_of_lt (Nat.zero_le a) ha
  have hsy : 0 < sy := Nat.lt_of_le_of_lt (Nat.zero_le b) hb
  have e1 : a + b * sx + c * sx * sy = a + sx * (b + sy * c) := by ring
  have e2 : a + b * sx + c * sx * sy = (a + b * sx) + sx * sy * c := by ring
  refine ⟨?_, ?_, ?_⟩
  · rw [e1, Nat.add_mul_mod_self_left, Nat.mod_eq_of_lt ha]
  · rw [e1, Nat.add_mul_div_left a (b + sy * c) hsx, Nat.div_eq_of_lt ha,
      Nat.zero_add, Nat.add_mul_mod_self_left, Nat.mod_eq_of_lt hb]
  · rw [e2, Nat.add_mul_div_left (a + b * sx) c (Nat.mul_pos hsx hsy),
      Nat.div_eq_of_lt (ab_lt ha hb), Nat.zero_add]

/-- The linear index of an in-range coordinate, as a `Nat` triple. -/
lemma get_index_of_inRange {w : World} {x y z : Int} (h : w.inRange x y z) :
    w.get_index x y z =
      some (x.toNat + y.toNat * w.size_x + z.toNat * w.size_x * w.size_y) := by
  rw [get_index_eq, if_pos h]

lemma get_index_of_not_inRange {w : World} {x y z : Int} (h : ¬ w.inRange x y z) :
    w.get_index x y z = none := by
  rw [get_index_eq, if_neg h]

/-- Any index produced by `get_index` is below the extent product. -/
lemma get_index_lt {w : World} {x y z : Int} {i : Nat}
    (h : w.get_index x y z = some i) : i < w.size_x * w.size_y * w.size_z := by
  rw [get_index_eq] at h
  by_cases hin : w.inRange x y z
  · rw [if_pos hin] at h
    obtain ⟨hx0, hx1, hy0, hy1, hz0, hz1⟩ := hin
    have hx : x.toNat < w.size_x := by omega
    have hy : y.toNat < w.size_y := by omega
    have hz : z.toNat < w.size_z := by omega
    have hi := Option.some.inj h
    rw [← hi]
    exact index_lt hx hy hz
  · rw [if_neg hin] at h
    exact absurd h (by simp)

/-- Indices of in-range coordinates determine the coordinates. -/
lemma get_index_inj {w : World} {x y z x' y' z' : Int} {i : Nat}
    (h : w.inRange x y z) (h' : w.inRange x' y' z')
    (hi : w.get_index x y z = some i) (hi' : w.get_index x' y' z' = some i) :
    x' = x ∧ y' = y ∧ z' = z := by
  rw [get_index_of_inRange h] at hi
  rw [get_index_of_inRange h'] at hi'
  obtain ⟨hx0, hx1, hy0, hy1, hz0, hz1⟩ := h
  obtain ⟨hx0', hx1', hy0', hy1', hz0', hz1'⟩ := h'
  have hx : x.toNat < w.size_x := by omega
  have hy : y.toNat < w.size_y := by omega
  have hz : z.toNat < w.size_z := by omega
  have hx' : x'.toNat < w.size_x := by omega
  have hy' : y'.toNat < w.size_y := by omega
  have hz' : z'.toNat < w.size_z := by omega
  have d := decode_index z.toNat hx hy
  have d' := decode_index z'.toNat hx' hy'
  have hii : x'.toNat + y'.toNat * w.size_x + z'.toNat * w.size_x * w.size_y =
      x.toNat + y.toNat * w.size_x + z.toNat * w.size_x * w.size_y :=
    (Option.some.inj hi').trans (Option.some.inj hi).symm
  rw [hii] at d'
  obtain ⟨m1, m2, m3⟩ := d
  obtain ⟨m1', m2', m3'⟩ := d'
  have ex : x'.toNat = x.toNat := m1'.symm.trans m1
  have ey : y'.toNat = y.toNat := m2'.symm.trans m2
  have ez : z'.toNat = z.toNat := m3'.symm.trans m3
  omega

end Gardening

/-! ## Mutation lemmas -/

namespace Gardening

/-- The extents are untouched by `set_tile`. -/
lemma set_tile_size_x (w : World) (x y z : Int) (t : Tile) :
    (w.set_tile x y z t).size_x = w.size_x := by
  unfold World.set_tile
  cases w.get_index x y z <;> rfl

lemma set_tile_size_y (w : World) (x y z : Int) (t : Tile) :
    (w.set_tile x y z t).size_y = w.size_y := by
  unfold World.set_tile
  cases w.get_index x y z <;> rfl

lemma set_tile_size_z (w : World) (x y z : Int) (t : Tile) :
    (w.set_tile x y z t).size_z = w.size_z := by
  unfold World.set_tile
  cases w.get_index x y z <;> rfl

/-- The storage length is untouched by `set_tile`. -/
lemma set_tile_length (w : World) (x y z : Int) (t : Tile) :
    (w.set_tile x y z t).tiles.length = w.tiles.length := by
  unfold World.set_tile
  cases w.get_index x y z
  · rfl
  · simp [List.length_set]

lemma set_tile_wf {w : World} (hwf : w.Wf) (x y z : Int) (t : Tile) :
    (w.set_tile x y z t).Wf := by
  unfold World.Wf at *
  rw [set_tile_length, set_tile_size_x, set_tile_size_y, set_tile_size_z, hwf]

/-- The in-range predicate only looks at the extents, so it is stable
under `set_tile`. -/
lemma inRange_set_tile (w : World) (x y z : Int) (t : Tile) (a b c : Int) :
    (w.set_tile x y z t).inRange a b c = w.inRange a b c := by
  unfold World.inRange
  rw [set_tile_size_x, set_tile_size_y, set_tile_size_z]

lemma get_index_set_tile (w : World) (x y z : Int) (t : Tile) (a b c : Int) :
    (w.set_tile x y z t).get_index a b c = w.get_index a b c := by
  unfold World.get_index
  rw [set_tile_size_x, set_tile_size_y, set_tile_size_z]

/-- Out-of-bounds reads are absent. -/
lemma get_tile_of_not_inRange {w : World} {x y z : Int} (h : ¬ w.inRange x y z) :
    w.get_tile x y z = none := by
  unfold World.get_tile
  rw [get_index_of_not_inRange h]
  rfl

/-- Out-of-bounds writes are the identity. -/
lemma set_tile_of_not_inRange {w : World} {x y z : Int} (h : ¬ w.inRange x y z)
    (t : Tile) : w.set_tile x y z t = w := by
  unfold World.set_tile
  rw [get_index_of_not_inRange h]

/-- In-range reads on a well-formed world succeed and return the stored
tile. -/
lemma get_tile_of_inRange {w : World} (hwf : w.Wf) {x y z : Int}
    (h : w.inRange x y z) :
    ∃ i, w.get_index x y z = some i ∧ i < w.tiles.length ∧
      w.get_tile x y z = w.tiles[i]? ∧ (w.get_tile x y z).isSome := by
  refine ⟨x.toNat + y.toNat * w.size_x + z.toNat * w.size_x * w.size_y,
    get_index_of_inRange h, ?_, ?_, ?_⟩
  · rw [hwf]
    exact get_index_lt (get_index_of_inRange h)
  · unfold World.get_tile
    rw [get_index_of_inRange h]
    rfl
  · unfold World.get_tile
    rw [get_index_of_inRange h]
    have hlt : x.toNat + y.toNat * w.size_x + z.toNat * w.size_x * w.size_y <
        w.tiles.length := by
      rw [hwf]; exact get_index_lt (get_index_of_inRange h)
    simp [Option.bind, List.getElem?_eq_getElem hlt]

/-- Reading back the written cell. -/
lemma get_tile_set_tile_self {w : World} (hwf : w.Wf) {x y z : Int}
    (h : w.inRange x y z) (t : Tile) :
    (w.set_tile x y z t).get_tile x y z = some t := by
  obtain ⟨i, hidx, hlt, -, -⟩ := get_tile_of_inRange hwf h
  unfold World.get_tile
  rw [get_index_set_tile, hidx]
  unfold World.set_tile
  rw [hidx]
  simp [List.getElem?_set_self (by simpa [List.length_set] using hlt)]

/-- Reading any other cell is unchanged by the write. -/
lemma get_tile_set_tile_ne {w : World} (hwf : w.Wf) {x y z : Int}
    (h : w.inRange x y z) (t : Tile) {a b c : Int}
    (hne : (a, b, c) ≠ (x, y, z)) :
    (w.set_tile x y z t).get_tile a b c = w.get_tile a b c := by
  obtain ⟨i, hidx, hlt, -, -⟩ := get_tile_of_inRange hwf h
  unfold World.get_tile
  rw [get_index_set_tile]
  by_cases hin : w.inRange a b c
  · obtain ⟨j, hjdx, hjlt, -, -⟩ := get_tile_of_inRange hwf hin
    rw [hjdx]
    have hji : j ≠ i := by
      intro hji
      rw [hji] at hjdx
      obtain ⟨e1, e2, e3⟩ := get_index_inj h hin hidx hjdx
      exact hne (by rw [e1, e2, e3])
    unfold World.set_tile
    rw [hidx]
    simp [List.getElem?_set_ne (Ne.symm hji)]
  · rw [get_index_of_not_inRange hin]
    rfl

/-- Any world property preserved by single steps is preserved by a
fold. -/
lemma foldl_preserve {β : Type} (P : World → Prop) (f : World → β → World)
    (hf : ∀ w b, P w → P (f w b)) (l : List β) (w : World) (hw : P w) :
    P (l.foldl f w) := by
  induction l generalizing w with
  | nil => exact hw
  | cons b l ih => exact ih (f w b) (hf w b hw)

end Gardening

/-! ## Traversal lemmas -/

namespace Gardening

/-- Membership in the visit sequence is exactly the in-range predicate. -/
lemma mem_visitList (w : World) (x y z : Int) :
    (x, y, z) ∈ w.visitList ↔ w.inRange x y z := by
  unfold World.visitList World.inRange
  constructor
  · intro h
    rw [List.mem_flatMap] at h
    obtain ⟨b, hb, h⟩ := h
    rw [List.mem_range] at hb
    rw [List.mem_flatMap] at h
    obtain ⟨a, ha, h⟩ := h
    rw [List.mem_range] at ha
    rw [List.mem_map] at h
    obtain ⟨c, hc, e⟩ := h
    rw [List.mem_range] at hc
    injection e with e1 e'
    injection e' with e2 e3
    omega
  · intro h
    rw [List.mem_flatMap]
    refine ⟨y.toNat, ?_, ?_⟩
    · rw [List.mem_range]; omega
    rw [List.mem_flatMap]
    refine ⟨x.toNat, ?_, ?_⟩
    · rw [List.mem_range]; omega
    rw [List.mem_map]
    refine ⟨z.toNat, ?_, ?_⟩
    · rw [List.mem_range]; omega
    · have e1 : ((x.toNat : Nat) : Int) = x := by omega
      have e2 : ((y.toNat : Nat) : Int) = y := by omega
      have e3 : ((z.toNat : Nat) : Int) = z := by omega
      rw [e1, e2, e3]

/-- Pairwise order over a `flatMap` of an initial segment of `Nat`. -/
lemma pairwise_flatMap_range {α : Type} {R : α → α → Prop} (n : Nat)
    (f : Nat → List α)
    (hin : ∀ i, i < n → (f i).Pairwise R)
    (hcross : ∀ i j, i < j → j < n → ∀ a ∈ f i, ∀ b ∈ f j, R a b) :
    ((List.range n).flatMap f).Pairwise R := by
  induction n with
  | zero => simp
  | succ n ih =>
    rw [List.range_succ, List.flatMap_append]
    rw [List.pairwise_append]
    refine ⟨ih (fun i hi => hin i (by omega))
      (fun i j hij hj => hcross i j hij (by omega)), ?_, ?_⟩
    · simpa using hin n (Nat.lt_succ_self n)
    · intro a ha b hb
      rw [List.mem_flatMap] at ha
      obtain ⟨i, hi, hai⟩ := ha
      exact hcross i n (List.mem_range.mp hi) (Nat.lt_succ_self n) a hai b
        (by simpa using hb)

/-- The visit sequence is strictly increasing in the `(y, x, z)`
lexicographic order. -/
lemma visitList_pairwise (w : World) : w.visitList.Pairwise visitLt := by
  unfold World.visitList
  refine pairwise_flatMap_range w.size_y _ ?_ ?_
  · intro yi _
    refine pairwise_flatMap_range w.size_x _ ?_ ?_
    · intro xi _
      refine List.Pairwise.map _ ?_ (List.pairwise_lt_range w.size_z)
      intro a b hab
      exact Or.inr ⟨rfl, Or.inr ⟨rfl, show ((a : Nat) : Int) < ((b : Nat) : Int) by omega⟩⟩
    · intro i j hij _ a ha b hb
      rw [List.mem_map] at ha hb
      obtain ⟨za, hza, rfl⟩ := ha
      obtain ⟨zb, hzb, rfl⟩ := hb
      exact Or.inr ⟨rfl, Or.inl (show ((i : Nat) : Int) < ((j : Nat) : Int) by omega)⟩
  · intro i j hij _ a ha b hb
    rw [List.mem_flatMap] at ha hb
    obtain ⟨xa, hxa, ha⟩ := ha
    obtain ⟨xb, hxb, hb⟩ := hb
    rw [List.mem_map] at ha hb
    obtain ⟨za, hza, rfl⟩ := ha
    obtain ⟨zb, hzb, rfl⟩ := hb
    exact Or.inl (show ((i : Nat) : Int) < ((j : Nat) : Int) by omega)

/-- A strictly ordered visit sequence has no duplicates. -/
lemma visitList_nodup (w : World) : w.visitList.Nodup := by
  refine List.Pairwise.imp ?_ (visitList_pairwise w)
  intro a b hab heq
  subst heq
  unfold visitLt at hab
  omega

/-- A `mapM` over `Option` whose steps all succeed is the `map` of the
successful results. -/
lemma mapM_eq_some_map {α β : Type} (g : α → Option β) (f : α → β)
    (l : List α) (h : ∀ a ∈ l, g a = some (f a)) :
    l.mapM g = some (l.map f) := by
  induction l with
  | nil => rfl
  | cons a l ih =>
    rw [List.mapM_cons, h a (List.mem_cons_self a l),
      ih (fun b hb => h b (List.mem_cons_of_mem a hb))]
    rfl

/-- On a well-formed world the frame traversal succeeds and emits, in
visit order, the commands of each visited tile. -/
lemma draw_window_eq {w : World} (hwf : w.Wf) :
    draw_window w =
      some (w.visitList.flatMap fun c =>
        draw_tile_at_grid (w.tileAt c) c.1 c.2.1 c.2.2) := by
  unfold draw_window
  rw [mapM_eq_some_map _
    (fun c => draw_tile_at_grid (w.tileAt c) c.1 c.2.1 c.2.2) _ ?_]
  · simp [List.flatMap_def]
  · intro c hc
    have hin : w.inRange c.1 c.2.1 c.2.2 := by
      rw [← mem_visitList]
      exact hc
    obtain ⟨i, hidx, hlt, hget, hsome⟩ := get_tile_of_inRange hwf hin
    obtain ⟨t, ht⟩ := Option.isSome_iff_exists.mp hsome
    simp [World.tileAt, ht]

end Gardening

/-! ## Flat-world initialization lemmas -/

namespace Gardening

lemma inRange_congr {w w' : World} (h1 : w'.size_x = w.size_x)
    (h2 : w'.size_y = w.size_y) (h3 : w'.size_z = w.size_z) (a b c : Int) :
    w'.inRange a b c = w.inRange a b c := by
  unfold World.inRange
  rw [h1, h2, h3]

/-- Effect of the inner `z` loop of `new_flat` on a read. -/
lemma foldl_setz_get (zs : List Nat) (w : World) (hwf : w.Wf) (x a b c : Int) :
    (zs.foldl (fun w' (z : Nat) => w'.set_tile x 0 (z : Int) Tile.Grass) w).get_tile a b c =
      if a = x ∧ b = 0 ∧ (∃ z ∈ zs, (z : Int) = c) ∧ w.inRange a b c then
        some Tile.Grass
      else w.get_tile a b c := by
  induction zs generalizing w with
  | nil =>
    rw [List.foldl_nil, if_neg]
    rintro ⟨-, -, ⟨z, hz, -⟩, -⟩
    exact absurd hz (List.not_mem_nil z)
  | cons z zs ih =>
    rw [List.foldl_cons,
      ih (w.set_tile x 0 (z : Int) Tile.Grass) (set_tile_wf hwf x 0 (z : Int) Tile.Grass)]
    simp only [inRange_congr (set_tile_size_x w x 0 (z : Int) Tile.Grass)
      (set_tile_size_y w x 0 (z : Int) Tile.Grass)
      (set_tile_size_z w x 0 (z : Int) Tile.Grass) a b c]
    by_cases h1 : w.inRange a b c
    · by_cases h2 : a = x ∧ b = 0 ∧ ∃ z' ∈ zs, (z' : Int) = c
      · rw [if_pos ⟨h2.1, h2.2.1, h2.2.2, h1⟩, if_pos ?_]
        obtain ⟨z', hz', hz'c⟩ := h2.2.2
        exact ⟨h2.1, h2.2.1, ⟨z', List.mem_cons_of_mem z hz', hz'c⟩, h1⟩
      · rw [if_neg (fun hc => h2 ⟨hc.1, hc.2.1, hc.2.2.1⟩)]
        by_cases h3 : a = x ∧ b = 0 ∧ (z : Int) = c
        · obtain ⟨ha, hb, hc⟩ := h3
          subst ha
          subst hb
          subst hc
          rw [if_pos ⟨rfl, rfl, ⟨z, List.mem_cons_self z zs, rfl⟩, h1⟩]
          exact get_tile_set_tile_self hwf h1 Tile.Grass
        · rw [if_neg ?_]
          · by_cases h4 : w.inRange x 0 (z : Int)
            · refine get_tile_set_tile_ne hwf h4 Tile.Grass ?_
              intro heq
              injection heq with e1 e'
              injection e' with e2 e3
              exact h3 ⟨e1, e2, e3.symm⟩
            · rw [set_tile_of_not_inRange h4]
          · rintro ⟨ha, hb, ⟨z', hz', hz'c⟩, -⟩
            rcases List.mem_cons.mp hz' with hz'head | hz'tail
            · subst hz'head
              exact h3 ⟨ha, hb, hz'c⟩
            · exact h2 ⟨ha, hb, ⟨z', hz'tail, hz'c⟩⟩
    · rw [if_neg (fun hc => h1 hc.2.2.2), if_neg (fun hc => h1 hc.2.2.2),
        get_tile_of_not_inRange (w := w.set_tile x 0 (z : Int) Tile.Grass) ?_,
        get_tile_of_not_inRange h1]
      rw [inRange_congr (set_tile_size_x w x 0 (z : Int) Tile.Grass)
        (set_tile_size_y w x 0 (z : Int) Tile.Grass)
        (set_tile_size_z w x 0 (z : Int) Tile.Grass) a b c]
      exact h1

end Gardening

namespace Gardening

/-- The inner `z` loop preserves sizes and length. -/
lemma foldl_setz_shape (zs : List Nat) (w : World) (x : Int) :
    (zs.foldl (fun w' (z : Nat) => w'.set_tile x 0 (z : Int) Tile.Grass) w).size_x = w.size_x ∧
    (zs.foldl (fun w' (z : Nat) => w'.set_tile x 0 (z : Int) Tile.Grass) w).size_y = w.size_y ∧
    (zs.foldl (fun w' (z : Nat) => w'.set_tile x 0 (z : Int) Tile.Grass) w).size_z = w.size_z ∧
    (zs.foldl (fun w' (z : Nat) => w'.set_tile x 0 (z : Int) Tile.Grass) w).tiles.length = w.tiles.length := by
  refine foldl_preserve
    (fun w' => w'.size_x = w.size_x ∧ w'.size_y = w.size_y ∧ w'.size_z = w.size_z ∧
      w'.tiles.length = w.tiles.length) _ ?_ zs w ⟨rfl, rfl, rfl, rfl⟩
  intro w' z hw'
  exact ⟨(set_tile_size_x w' x 0 (z : Int) Tile.Grass).trans hw'.1,
    (set_tile_size_y w' x 0 (z : Int) Tile.Grass).trans hw'.2.1,
    (set_tile_size_z w' x 0 (z : Int) Tile.Grass).trans hw'.2.2.1,
    (set_tile_length w' x 0 (z : Int) Tile.Grass).trans hw'.2.2.2⟩

/-- Effect of the whole nested `x`/`z` loop of `new_flat` on a read. -/
lemma foldl_setxz_get (xs zs : List Nat) (w : World) (hwf : w.Wf) (a b c : Int) :
    (xs.foldl (fun w' (x : Nat) =>
        zs.foldl (fun w'' (z : Nat) => w''.set_tile (x : Int) 0 (z : Int) Tile.Grass) w') w).get_tile a b c =
      if (∃ x ∈ xs, (x : Int) = a) ∧ b = 0 ∧ (∃ z ∈ zs, (z : Int) = c) ∧ w.inRange a b c then
        some Tile.Grass
      else w.get_tile a b c := by
  induction xs generalizing w with
  | nil =>
    rw [List.foldl_nil, if_neg]
    rintro ⟨⟨x, hx, -⟩, -, -, -⟩
    exact absurd hx (List.not_mem_nil x)
  | cons x xs ih =>
    rw [List.foldl_cons]
    have hwf1 : (zs.foldl (fun w'' (z : Nat) => w''.set_tile (x : Int) 0 (z : Int) Tile.Grass) w).Wf := by
      refine foldl_preserve World.Wf _ ?_ zs w hwf
      intro w' z hw'
      exact set_tile_wf hw' (x : Int) 0 (z : Int) Tile.Grass
    rw [ih _ hwf1]
    obtain ⟨s1, s2, s3, -⟩ := foldl_setz_shape zs w (x : Int)
    simp only [inRange_congr s1 s2 s3 a b c]
    rw [foldl_setz_get zs w hwf (x : Int) a b c]
    by_cases h1 : b = 0 ∧ (∃ z ∈ zs, (z : Int) = c) ∧ w.inRange a b c
    · by_cases h2 : ∃ x' ∈ xs, (x' : Int) = a
      · rw [if_pos ⟨h2, h1.1, h1.2.1, h1.2.2⟩, if_pos ?_]
        obtain ⟨x', hx', hx'a⟩ := h2
        exact ⟨⟨x', List.mem_cons_of_mem x hx', hx'a⟩, h1.1, h1.2.1, h1.2.2⟩
      · rw [if_neg (fun hc => h2 hc.1)]
        by_cases h3 : a = (x : Int)
        · rw [if_pos ⟨h3, h1.1, h1.2.1, h1.2.2⟩,
            if_pos ⟨⟨x, List.mem_cons_self x xs, h3.symm⟩, h1.1, h1.2.1, h1.2.2⟩]
        · rw [if_neg (fun hc => h3 hc.1), if_neg ?_]
          rintro ⟨⟨x', hx', hx'a⟩, -, -, -⟩
          rcases List.mem_cons.mp hx' with hh | ht
          · subst hh
            exact h3 hx'a.symm
          · exact h2 ⟨x', ht, hx'a⟩
    · rw [if_neg (fun hc => h1 ⟨hc.2.1, hc.2.2⟩),
        if_neg (fun hc => h1 ⟨hc.2.1, hc.2.2.1, hc.2.2.2⟩),
        if_neg (fun hc => h1 ⟨hc.2.1, hc.2.2⟩)]

/-- The extents of `new_flat` are its arguments, and it is well-formed. -/
lemma new_flat_shape (sx sy sz : Nat) :
    (World.new_flat sx sy sz).size_x = sx ∧ (World.new_flat sx sy sz).size_y = sy ∧
    (World.new_flat sx sy sz).size_z = sz ∧ (World.new_flat sx sy sz).Wf := by
  unfold World.new_flat
  have base : (⟨List.replicate (sx * sy * sz) Tile.Air, sx, sy, sz⟩ : World).Wf := by
    unfold World.Wf
    exact List.length_replicate (sx * sy * sz) Tile.Air
  refine foldl_preserve
    (fun w' => w'.size_x = sx ∧ w'.size_y = sy ∧ w'.size_z = sz ∧ w'.Wf) _ ?_ _ _
    ⟨rfl, rfl, rfl, base⟩
  intro w' x hw'
  obtain ⟨s1, s2, s3, s4⟩ := foldl_setz_shape (List.range sz) w' (x : Int)
  refine ⟨s1.trans hw'.1, s2.trans hw'.2.1, s3.trans hw'.2.2.1, ?_⟩
  unfold World.Wf
  rw [s4, s1, s2, s3]
  exact hw'.2.2.2

/-- Unfolding `new_flat` to its fold over the initial replicated
vector. -/
lemma new_flat_eq_foldl (sx sy sz : Nat) :
    World.new_flat sx sy sz =
      (List.range sx).foldl
        (fun w (x : Nat) =>
          (List.range sz).foldl
            (fun w (z : Nat) => w.set_tile (x : Int) 0 (z : Int) Tile.Grass) w)
        ⟨List.replicate (sx * sy * sz) Tile.Air, sx, sy, sz⟩ := rfl

/-- Reading `new_flat`: ground tile on the `y = 0` layer, `Air`
elsewhere, absent out of range. -/
lemma new_flat_get (sx sy sz : Nat) (a b c : Int) :
    (World.new_flat sx sy sz).get_tile a b c =
      if (World.new_flat sx sy sz).inRange a b c then
        some (if b = 0 then Tile.Grass else Tile.Air)
      else none := by
  obtain ⟨s1, s2, s3, -⟩ := new_flat_shape sx sy sz
  have base : (⟨List.replicate (sx * sy * sz) Tile.Air, sx, sy, sz⟩ : World).Wf := by
    unfold World.Wf
    exact List.length_replicate (sx * sy * sz) Tile.Air
  have hcong : ((World.new_flat sx sy sz).inRange a b c) =
      ((⟨List.replicate (sx * sy * sz) Tile.Air, sx, sy, sz⟩ : World).inRange a b c) :=
    inRange_congr s1 s2 s3 a b c
  conv_lhs => rw [new_flat_eq_foldl]
  rw [foldl_setxz_get (List.range sx) (List.range sz) _ base a b c]
  simp only [hcong]
  by_cases hin : (⟨List.replicate (sx * sy * sz) Tile.Air, sx, sy, sz⟩ : World).inRange a b c
  · have hget : (⟨List.replicate (sx * sy * sz) Tile.Air, sx, sy, sz⟩ : World).get_tile a b c =
        some Tile.Air := by
      obtain ⟨i, hidx, hlt, hget, -⟩ := get_tile_of_inRange base hin
      rw [hget, List.getElem?_replicate, if_pos ?_]
      simpa [List.length_replicate] using hlt
    obtain ⟨hx0, hx1, hy0, hy1, hz0, hz1⟩ := hin
    have hx1' : a < (sx : Int) := hx1
    have hy1' : b < (sy : Int) := hy1
    have hz1' : c < (sz : Int) := hz1
    have hin' : (⟨List.replicate (sx * sy * sz) Tile.Air, sx, sy, sz⟩ : World).inRange a b c :=
      ⟨hx0, hx1, hy0, hy1, hz0, hz1⟩
    by_cases hb : b = 0
    · rw [if_pos ⟨⟨a.toNat, List.mem_range.mpr (by omega), by omega⟩, hb,
        ⟨c.toNat, List.mem_range.mpr (by omega), by omega⟩, hin'⟩,
        if_pos hin', if_pos hb]
    · rw [if_neg (fun hc => hb hc.2.1), if_pos hin', if_neg hb]
      exact hget
  · rw [if_neg (fun hc => hin hc.2.2.2), if_neg hin]
    exact get_tile_of_not_inRange hin

/-- Every reachable world is well-formed. -/
lemma reachable_wf_aux {w : World} (h : Reachable w) : w.Wf := by
  induction h with
  | flat sx sy sz => exact (new_flat_shape sx sy sz).2.2.2
  | set w x y z t hr ih => exact set_tile_wf ih x y z t

end Gardening

/-! ## Projection lemmas -/

namespace Gardening

lemma wrap64_eq_self (v : Int) (h1 : -9223372036854775808 ≤ v)
    (h2 : v < 9223372036854775808) : wrap64 v = v := by
  unfold wrap64
  have e1 : (2 : Int) ^ 63 = 9223372036854775808 := by norm_num
  have e2 : (2 : Int) ^ 64 = 18446744073709551616 := by norm_num
  rw [e1, e2]
  omega

lemma toI32_eq_self (v : Int) (h1 : -2147483648 ≤ v)
    (h2 : v < 2147483648) : toI32 v = v := by
  unfold toI32
  have e1 : (2 : Int) ^ 31 = 2147483648 := by norm_num
  have e2 : (2 : Int) ^ 32 = 4294967296 := by norm_num
  rw [e1, e2]
  omega

end Gardening

/-! ## Claim theorems -/

namespace Gardening

/-- C1: for every in-range coordinate, `get_index` returns the linear
index `x + y*size_x + z*size_x*size_y`, which lies in
`[0, size_x*size_y*size_z)`; `index_to_coordinate` recovers the triple,
and the mapping is injective on in-range triples. -/
theorem get_index_bijection (w : World) (x y z : Int) (h : w.inRange x y z) :
    ∃ i : Nat, w.get_index x y z = some i ∧
      (i : Int) = x + y * (w.size_x : Int) + z * ((w.size_x : Int) * (w.size_y : Int)) ∧
      i < w.size_x * w.size_y * w.size_z ∧
      w.index_to_coordinate i = (x, y, z) ∧
      ∀ x' y' z' : Int, w.inRange x' y' z' →
        w.get_index x' y' z' = w.get_index x y z → x' = x ∧ y' = y ∧ z' = z := by
  obtain ⟨hx0, hx1, hy0, hy1, hz0, hz1⟩ := h
  have hin : w.inRange x y z := ⟨hx0, hx1, hy0, hy1, hz0, hz1⟩
  have e1 : ((x.toNat : Nat) : Int) = x := by omega
  have e2 : ((y.toNat : Nat) : Int) = y := by omega
  have e3 : ((z.toNat : Nat) : Int) = z := by omega
  refine ⟨x.toNat + y.toNat * w.size_x + z.toNat * w.size_x * w.size_y,
    get_index_of_inRange hin, ?_, ?_, ?_, ?_⟩
  · push_cast
    rw [e1, e2, e3]
    ring
  · exact index_lt (by omega) (by omega) (by omega)
  · unfold World.index_to_coordinate
    obtain ⟨m1, m2, m3⟩ := decode_index z.toNat
      (show x.toNat < w.size_x by omega) (show y.toNat < w.size_y by omega)
    rw [m1, m2, m3, e1, e2, e3]
  · intro x' y' z' h' he
    exact get_index_inj hin h' (get_index_of_inRange hin)
      (he.trans (get_index_of_inRange hin))

/-- C1 witness: concrete instance on a 5 x 2 x 10 grid at `(3, 1, 7)`. -/
theorem get_index_bijection_witness :
    ∃ i : Nat, (⟨[], 5, 2, 10⟩ : World).get_index 3 1 7 = some i ∧
      (i : Int) = 3 + 1 * 5 + 7 * (5 * 2) ∧ i < 5 * 2 * 10 ∧
      (⟨[], 5, 2, 10⟩ : World).index_to_coordinate i = (3, 1, 7) ∧
      ∀ x' y' z' : Int, (⟨[], 5, 2, 10⟩ : World).inRange x' y' z' →
        (⟨[], 5, 2, 10⟩ : World).get_index x' y' z' =
          (⟨[], 5, 2, 10⟩ : World).get_index 3 1 7 →
        x' = 3 ∧ y' = 1 ∧ z' = 7 :=
  get_index_bijection ⟨[], 5, 2, 10⟩ 3 1 7 (by decide)

/-- C2 (amended): for coordinates whose projection fits an `i32`
(here: all components strictly between `-2^26` and `2^26`), the
projection is exactly `((x - z) * (2*8), (x + z - 2*y) * 8)`; the first
three of the spec's sample points are as stated, and `(0, 1, 0)` maps to
`(0, -16)`. -/
theorem tile_coords_to_px_exact (x y z : Int)
    (hx1 : -67108864 < x) (hx2 : x < 67108864)
    (hy1 : -67108864 < y) (hy2 : y < 67108864)
    (hz1 : -67108864 < z) (hz2 : z < 67108864) :
    tile_coords_to_px x y z = ((x - z) * (2 * 8), (x + z - 2 * y) * 8) ∧
    tile_coords_to_px 0 0 0 = (0, 0) ∧
    tile_coords_to_px 1 0 0 = (16, 8) ∧
    tile_coords_to_px 0 0 1 = (-16, 8) ∧
    tile_coords_to_px 0 1 0 = (0, -16) := by
  refine ⟨?_, by decide, by decide, by decide, by decide⟩
  show (toI32 (wrap64 (wrap64 (x - z) * ((32 : Int) / 4 * 2))),
        toI32 (wrap64 (wrap64 (wrap64 (wrap64 (x + z) - y) - y) * ((32 : Int) / 4)))) = _
  have q : (32 : Int) / 4 = 8 := by norm_num
  rw [q]
  rw [wrap64_eq_self (x - z) (by omega) (by omega),
      wrap64_eq_self (x + z) (by omega) (by omega),
      wrap64_eq_self (x + z - y) (by omega) (by omega),
      wrap64_eq_self (x + z - y - y) (by omega) (by omega),
      wrap64_eq_self ((x - z) * (8 * 2)) (by omega) (by omega),
      wrap64_eq_self ((x + z - y - y) * 8) (by omega) (by omega),
      toI32_eq_self ((x - z) * (8 * 2)) (by omega) (by omega),
      toI32_eq_self ((x + z - y - y) * 8) (by omega) (by omega)]
  have e1 : (x - z) * (8 * 2) = (x - z) * (2 * 8) := by ring
  have e2 : (x + z - y - y) * 8 = (x + z - 2 * y) * 8 := by ring
  rw [e1, e2]

/-- C2 witness: the exact projection at `(1, 0, 0)`. -/
theorem tile_coords_to_px_exact_witness :
    tile_coords_to_px 1 0 0 = ((1 - 0) * (2 * 8), (1 + 0 - 2 * 0) * 8) :=
  (tile_coords_to_px_exact 1 0 0 (by decide) (by decide) (by decide)
    (by decide) (by decide) (by decide)).1

/-- C2 counterexample: at `x = 2^27` the `as i32` cast wraps, so the
claimed formula fails; and the claimed sample `(0, 1, 0) = (0, -8)` is
wrong, the code yields `(0, -16)`. -/
theorem tile_coords_to_px_counterexample :
    ¬ (tile_coords_to_px 134217728 0 0 =
        ((134217728 - 0) * (2 * 8), (134217728 + 0 - 2 * 0) * 8)) ∧
    ¬ (tile_coords_to_px 0 1 0 = (0, -8)) := by
  constructor <;> decide

/-- C4: an out-of-bounds coordinate makes `get_tile` absent and
`set_tile` a strict no-op, leaving the whole world unchanged. -/
theorem out_of_bounds_noop (w : World) (x y z : Int) (t : Tile)
    (h : ¬ w.inRange x y z) :
    w.get_tile x y z = none ∧ w.set_tile x y z t = w :=
  ⟨get_tile_of_not_inRange h, set_tile_of_not_inRange h t⟩

/-- C4 witness: a negative coordinate on a 1 x 1 x 1 grid. -/
theorem out_of_bounds_noop_witness :
    (⟨[Tile.Grass], 1, 1, 1⟩ : World).get_tile (-1) 0 0 = none ∧
    (⟨[Tile.Grass], 1, 1, 1⟩ : World).set_tile (-1) 0 0 Tile.Air =
      ⟨[Tile.Grass], 1, 1, 1⟩ :=
  out_of_bounds_noop ⟨[Tile.Grass], 1, 1, 1⟩ (-1) 0 0 Tile.Air (by decide)

/-- C5: `new_flat` keeps the requested extents, is well-formed, holds
`Grass` on every in-range `y = 0` cell and `Air` on every other in-range
cell, and a zero-sized dimension yields a grid with no cells. -/
theorem new_flat_spec (sx sy sz : Nat) (x y z : Int) :
    (World.new_flat sx sy sz).size_x = sx ∧
    (World.new_flat sx sy sz).size_y = sy ∧
    (World.new_flat sx sy sz).size_z = sz ∧
    (World.new_flat sx sy sz).Wf ∧
    ((World.new_flat sx sy sz).inRange x y z →
      (World.new_flat sx sy sz).get_tile x y z =
        some (if y = 0 then Tile.Grass else Tile.Air)) ∧
    (sx = 0 ∨ sy = 0 ∨ sz = 0 → (World.new_flat sx sy sz).tiles = []) := by
  obtain ⟨s1, s2, s3, s4⟩ := new_flat_shape sx sy sz
  refine ⟨s1, s2, s3, s4, ?_, ?_⟩
  · intro hin
    rw [new_flat_get, if_pos hin]
  · intro h0
    have hlen : (World.new_flat sx sy sz).tiles.length = 0 := by
      have hwf : (World.new_flat sx sy sz).tiles.length =
          (World.new_flat sx sy sz).size_x * (World.new_flat sx sy sz).size_y *
            (World.new_flat sx sy sz).size_z := s4
      rw [hwf, s1, s2, s3]
      rcases h0 with h | h | h <;> simp [h]
    exact List.eq_nil_of_length_eq_zero hlen

set_option maxRecDepth 16384 in
/-- C5 witness: on `new_flat 5 2 10`, the cell `(3, 0, 7)` holds
`Grass` and `(3, 1, 7)` holds `Air`. -/
theorem new_flat_spec_witness :
    (World.new_flat 5 2 10).get_tile 3 0 7 = some Tile.Grass ∧
    (World.new_flat 5 2 10).get_tile 3 1 7 = some Tile.Air := by
  have h := (new_flat_spec 5 2 10 3 0 7).2.2.2.2.1 (by decide)
  have h' := (new_flat_spec 5 2 10 3 1 7).2.2.2.2.1 (by decide)
  exact ⟨by simpa using h, by simpa using h'⟩

/-- C6: for every non-empty tile the atlas rectangle follows the spec's
column/row formula on the kind index, and the formula sends kind index 3
to origin `(96, 0)` and kind index 16 to origin `(0, 32)`. -/
theorem texture_rect_atlas (t : Tile) (h : t ≠ Tile.Air) :
    t.texture_rect = some (atlasRect t.tile_id) ∧
    atlasRect 3 = ⟨96, 0, 32, 32⟩ ∧
    atlasRect 16 = ⟨0, 32, 32, 32⟩ := by
  refine ⟨?_, by decide, by decide⟩
  cases t with
  | Air => exact absurd rfl h
  | Grass => decide
  | Plant b => cases b <;> decide

/-- C6 witness: the atlas rectangle of `Grass`. -/
theorem texture_rect_atlas_witness :
    Tile.Grass.texture_rect = some (atlasRect Tile.Grass.tile_id) :=
  (texture_rect_atlas Tile.Grass (by decide)).1

end Gardening

namespace Gardening

/-- C3: one frame visits exactly the in-range coordinates, each once,
strictly ascending in the `(y, x, z)` lexicographic order; the emitted
command sequence is the in-order concatenation of each visited tile's
commands, where a non-`Air` tile emits exactly one command and `Air`
emits none; an all-`Air` grid emits nothing. -/
theorem draw_window_traversal (w : World) (hwf : w.Wf) :
    (∀ x y z : Int, (x, y, z) ∈ w.visitList ↔ w.inRange x y z) ∧
    w.visitList.Pairwise visitLt ∧
    w.visitList.Nodup ∧
    draw_window w = some (w.visitList.flatMap fun c =>
      draw_tile_at_grid (w.tileAt c) c.1 c.2.1 c.2.2) ∧
    (∀ (t : Tile) (x y z : Int),
      (draw_tile_at_grid t x y z).length = if t = Tile.Air then 0 else 1) ∧
    ((∀ t ∈ w.tiles, t = Tile.Air) → draw_window w = some []) := by
  refine ⟨mem_visitList w, visitList_pairwise w, visitList_nodup w,
    draw_window_eq hwf, ?_, ?_⟩
  · intro t x y z
    cases t with
    | Air => rfl
    | Grass => rfl
    | Plant b => cases b <;> rfl
  · intro hair
    rw [draw_window_eq hwf]
    congr 1
    rw [List.flatMap_eq_nil_iff]
    intro c hc
    have hin : w.inRange c.1 c.2.1 c.2.2 :=
      (mem_visitList w c.1 c.2.1 c.2.2).mp hc
    obtain ⟨i, hidx, hlt, hget, hsome⟩ := get_tile_of_inRange hwf hin
    obtain ⟨t, ht⟩ := Option.isSome_iff_exists.mp hsome
    have htm : t ∈ w.tiles := List.getElem?_mem (hget.symm.trans ht)
    have hta : w.tileAt c = t := by
      unfold World.tileAt
      rw [ht]
      rfl
    rw [hta, hair t htm]
    rfl

/-- C3 witness: the frame equation on the concrete world
`new_flat 2 1 2`. -/
theorem draw_window_traversal_witness :
    draw_window (World.new_flat 2 1 2) =
      some ((World.new_flat 2 1 2).visitList.flatMap fun c =>
        draw_tile_at_grid ((World.new_flat 2 1 2).tileAt c) c.1 c.2.1 c.2.2) :=
  (draw_window_traversal (World.new_flat 2 1 2) (by decide)).2.2.2.1

/-- C7: on any reachable world, every in-range read made by the draw
loop succeeds, and the whole frame traversal succeeds (the `unwrap`
never panics). -/
theorem draw_loop_get_tile_total (w : World) (hr : Reachable w) (x y z : Int)
    (h : w.inRange x y z) :
    (w.get_tile x y z).isSome ∧ (draw_window w).isSome := by
  have hwf := reachable_wf_aux hr
  obtain ⟨i, -, -, -, hsome⟩ := get_tile_of_inRange hwf h
  refine ⟨hsome, ?_⟩
  rw [draw_window_eq hwf]
  rfl

set_option maxRecDepth 16384 in
/-- C7 witness: the world built by `main` before its `set_tile` call. -/
theorem draw_loop_get_tile_total_witness :
    ((World.new_flat 5 2 10).get_tile 4 1 2).isSome ∧
    (draw_window (World.new_flat 5 2 10)).isSome :=
  draw_loop_get_tile_total (World.new_flat 5 2 10) (Reachable.flat 5 2 10)
    4 1 2 (by decide)

/-- C8: the catalog mapping is total and injective on non-empty tiles:
`Air` has no rectangle, every other variant has one, and distinct
non-empty variants get distinct rectangles. -/
theorem texture_rect_total_injective :
    Tile.texture_rect Tile.Air = none ∧
    (∀ t : Tile, t ≠ Tile.Air → (Tile.texture_rect t).isSome) ∧
    (∀ t₁ t₂ : Tile, t₁ ≠ Tile.Air → t₂ ≠ Tile.Air →
      Tile.texture_rect t₁ = Tile.texture_rect t₂ → t₁ = t₂) := by
  refine ⟨rfl, ?_, ?_⟩
  · intro t ht
    cases t with
    | Air => exact absurd rfl ht
    | Grass => decide
    | Plant b => cases b <;> decide
  · intro t₁ t₂ h₁ h₂ he
    cases t₁ with
    | Air => exact absurd rfl h₁
    | Grass =>
      cases t₂ with
      | Air => exact absurd rfl h₂
      | Grass => rfl
      | Plant b => revert he; cases b <;> decide
    | Plant b =>
      cases t₂ with
      | Air => exact absurd rfl h₂
      | Grass => revert he; cases b <;> decide
      | Plant b2 => revert he; cases b <;> cases b2 <;> decide

/-- C8 witness: the mature plant has a rectangle. -/
theorem texture_rect_total_injective_witness :
    (Tile.texture_rect (Tile.Plant true)).isSome :=
  texture_rect_total_injective.2.1 (Tile.Plant true) (by decide)

/-- C9: every reachable world keeps storage length equal to the product
of its extents; `set_tile` never changes the extents or the storage
length; and every index `get_index` produces is a valid storage index. -/
theorem reachable_invariant (w : World) (h : Reachable w) :
    w.tiles.length = w.size_x * w.size_y * w.size_z ∧
    (∀ x y z t, (w.set_tile x y z t).size_x = w.size_x ∧
      (w.set_tile x y z t).size_y = w.size_y ∧
      (w.set_tile x y z t).size_z = w.size_z ∧
      (w.set_tile x y z t).tiles.length = w.tiles.length) ∧
    (∀ x y z i, w.get_index x y z = some i → i < w.tiles.length) := by
  have hwf := reachable_wf_aux h
  have hwf' : w.tiles.length = w.size_x * w.size_y * w.size_z := hwf
  refine ⟨hwf', ?_, ?_⟩
  · intro x y z t
    exact ⟨set_tile_size_x w x y z t, set_tile_size_y w x y z t,
      set_tile_size_z w x y z t, set_tile_length w x y z t⟩
  · intro x y z i hi
    have := get_index_lt hi
    omega

/-- C9 witness: the invariant on the freshly built `new_flat 1 1 1`. -/
theorem reachable_invariant_witness :
    (World.new_flat 1 1 1).tiles.length =
      (World.new_flat 1 1 1).size_x * (World.new_flat 1 1 1).size_y *
        (World.new_flat 1 1 1).size_z :=
  (reachable_invariant (World.new_flat 1 1 1) (Reachable.flat 1 1 1)).1

/-- C10: on a well-formed world, an in-range `set_tile` stores exactly
the written tile at the written cell and leaves every other cell's read
result unchanged. -/
theorem set_tile_frame (w : World) (hwf : w.Wf) (x y z : Int)
    (h : w.inRange x y z) (t : Tile) :
    (w.set_tile x y z t).get_tile x y z = some t ∧
    ∀ x' y' z' : Int, (x', y', z') ≠ (x, y, z) →
      (w.set_tile x y z t).get_tile x' y' z' = w.get_tile x' y' z' :=
  ⟨get_tile_set_tile_self hwf h t,
   fun x' y' z' hne => get_tile_set_tile_ne hwf h t hne⟩

/-- C10 witness: writing `Grass` at `(1, 0, 0)` of a 2 x 1 x 1 grid. -/
theorem set_tile_frame_witness :
    ((⟨[Tile.Air, Tile.Air], 2, 1, 1⟩ : World).set_tile 1 0 0 Tile.Grass).get_tile 1 0 0 =
      some Tile.Grass ∧
    ((⟨[Tile.Air, Tile.Air], 2, 1, 1⟩ : World).set_tile 1 0 0 Tile.Grass).get_tile 0 0 0 =
      (⟨[Tile.Air, Tile.Air], 2, 1, 1⟩ : World).get_tile 0 0 0 := by
  have h := set_tile_frame ⟨[Tile.Air, Tile.Air], 2, 1, 1⟩ (by decide) 1 0 0
    (by decide) Tile.Grass
  exact ⟨h.1, h.2 0 0 0 (by decide)⟩

end Gardening
